import Mathlib

/-
Verification of the Newton–Raphson root finder
(src/Numeric Methods/Newton–Raphson/my_newton.py).

The routine takes a symbolic expression, picks its independent variable
(the first free symbol, or a conventional default name when there is
none), differentiates the expression symbolically once, and then runs
the Newton iteration with a list of iterates as loop state.

Floating-point values are modelled by the rationals, so arithmetic is
exact; the exact-equality zero-derivative guard of the source is an
exact-equality test here as well.  Python's `range(max_iter)` accepts
any integer and yields `max(max_iter, 0)` items, so `max_iter` is an
integer and the loop runs `max_iter.toNat` times.  The Python defaults
are tol = 1e-6 and max_iter = 20; the model takes both explicitly.
-/

namespace Newton

/-- Symbolic expressions: the fragment of the symbolic backend the
routine relies on (constants, variables, sums, differences, products
and natural powers), enough for every expression in the repository. -/
inductive Expr : Type
  | const (c : ℚ)
  | var (s : String)
  | add (a b : Expr)
  | sub (a b : Expr)
  | mul (a b : Expr)
  | pow (a : Expr) (n : ℕ)
deriving DecidableEq

/-- All occurrences of free symbols, left to right. -/
def collectSymbols : Expr → List String
  | .const _ => []
  | .var s => [s]
  | .add a b => collectSymbols a ++ collectSymbols b
  | .sub a b => collectSymbols a ++ collectSymbols b
  | .mul a b => collectSymbols a ++ collectSymbols b
  | .pow a _ => collectSymbols a

/-- `f_expr.free_symbols` as a list: the backend-defined enumeration
order of the model is first occurrence, left to right. -/
def freeSymbols (e : Expr) : List String :=
  (collectSymbols e).eraseDups

/-- `free_syms[0] if free_syms else sp.symbols('x')`: the first free
symbol when there is one, the conventional name `x` otherwise. -/
def selectedVar (f_expr : Expr) : String :=
  match freeSymbols f_expr with
  | [] => "x"
  | v :: _ => v

/-- Numeric evaluation of an expression after substituting `val` for
the variable `v` (the backend's lambdify-then-call; any other symbol
evaluates to 0, a case no claim exercises). -/
def evalE (v : String) (val : ℚ) : Expr → ℚ
  | .const c => c
  | .var s => if s = v then val else 0
  | .add a b => evalE v val a + evalE v val b
  | .sub a b => evalE v val a - evalE v val b
  | .mul a b => evalE v val a * evalE v val b
  | .pow a n => (evalE v val a) ^ n

/-- Symbolic differentiation `sp.diff(f_expr, x)` with respect to the
variable `v`. -/
def diffE (v : String) : Expr → Expr
  | .const _ => .const 0
  | .var s => if s = v then .const 1 else .const 0
  | .add a b => .add (diffE v a) (diffE v b)
  | .sub a b => .sub (diffE v a) (diffE v b)
  | .mul a b => .add (.mul (diffE v a) b) (.mul a (diffE v b))
  | .pow a n =>
    match n with
    | 0 => .const 0
    | m + 1 => .mul (.mul (.const (m + 1)) (.pow a m)) (diffE v a)

/-- The two failure kinds of the routine: `zeroDerivative` models the
ZeroDivisionError raised on an exactly zero derivative,
`nonConvergence` the ValueError raised when the cap is exhausted. -/
inductive NewtonError : Type
  | zeroDerivative
  | nonConvergence
deriving DecidableEq

/-- One Newton update `x - f(x) / f'(x)`. -/
def newtonStep (f df : ℚ → ℚ) (x : ℚ) : ℚ :=
  x - f x / df x

/-- The iteration loop of `my_newton`, with the iterate list `xn` as
state, read through `xn[-1]` and grown by append; the convergence
check reads `xn[-2]` of the extended list, i.e. the element that was
last before the append. -/
def newtonLoop (f df : ℚ → ℚ) (tol : ℚ) : List ℚ → ℕ → Except NewtonError (List ℚ)
  | _, 0 => .error .nonConvergence
  | xn, n + 1 =>
    if df xn.getLast! = 0 then .error .zeroDerivative
    else
      let x_new := xn.getLast! - f xn.getLast! / df xn.getLast!
      let xn2 := xn ++ [x_new]
      if |x_new - xn2.dropLast.getLast!| < tol then .ok xn2
      else newtonLoop f df tol xn2 n

/-- `my_newton(f_expr, x0, tol, max_iter)`: select the variable, build
the evaluators of the expression and of its symbolic derivative, and
run the loop starting from the one-element iterate list `[x0]`. -/
def my_newton (f_expr : Expr) (x0 : ℚ) (tol : ℚ) (max_iter : ℤ) : Except NewtonError (List ℚ) :=
  let x := selectedVar f_expr
  let f : ℚ → ℚ := fun v => evalE x v f_expr
  let df : ℚ → ℚ := fun v => evalE x v (diffE x f_expr)
  newtonLoop f df tol [x0] max_iter.toNat

/-- The numeric evaluator of the input expression built by `my_newton`. -/
def fFun (e : Expr) : ℚ → ℚ :=
  fun v => evalE (selectedVar e) v e

/-- The numeric evaluator of the symbolic derivative built by
`my_newton`. -/
def dfFun (e : Expr) : ℚ → ℚ :=
  fun v => evalE (selectedVar e) v (diffE (selectedVar e) e)

/-- The mathematical orbit of the Newton update: `newtonSeq f df a k`
is the k-th iterate starting from `a`. -/
def newtonSeq (f df : ℚ → ℚ) (a : ℚ) : ℕ → ℚ
  | 0 => a
  | k + 1 => newtonStep f df (newtonSeq f df a k)

/-- The orbit of a `my_newton` invocation from `x0`. -/
def iterSeq (e : Expr) (x0 : ℚ) : ℕ → ℚ :=
  newtonSeq (fFun e) (dfFun e) x0

/-- Reference form of the loop carrying only the last iterate; it
returns the list of the iterates produced after the start point. -/
def loopRef (f df : ℚ → ℚ) (tol : ℚ) : ℕ → ℚ → Except NewtonError (List ℚ)
  | 0, _ => .error .nonConvergence
  | n + 1, a =>
    if df a = 0 then .error .zeroDerivative
    else
      let b := newtonStep f df a
      if |b - a| < tol then .ok [b]
      else Except.map (fun l => b :: l) (loopRef f df tol n b)

lemma getLast!_append_singleton (l : List ℚ) (a : ℚ) : (l ++ [a]).getLast! = a := by
  induction l with
  | nil => rfl
  | cons x xs ih => simp [List.getLast!, List.getLast?]

lemma except_map_eq_ok {ε α β : Type} (g : α → β) (r : Except ε α) (b : β)
    (h : Except.map g r = .ok b) : ∃ a, r = .ok a ∧ b = g a := by
  cases r with
  | ok a =>
    refine ⟨a, rfl, ?_⟩
    simpa [Except.map] using h.symm
  | error e => simp [Except.map] at h

lemma except_map_eq_error {ε α β : Type} (g : α → β) (r : Except ε α) (e : ε) :
    Except.map g r = .error e ↔ r = .error e := by
  cases r <;> simp [Except.map]

lemma newtonSeq_shift (f df : ℚ → ℚ) (a : ℚ) (k : ℕ) :
    newtonSeq f df (newtonStep f df a) k = newtonSeq f df a (k + 1) := by
  induction k with
  | zero => rfl
  | succ k ih => simp only [newtonSeq, ih]

lemma newtonLoop_eq_loopRef (f df : ℚ → ℚ) (tol : ℚ) :
    ∀ (n : ℕ) (xs : List ℚ), xs ≠ [] →
      newtonLoop f df tol xs n =
        Except.map (fun l => xs ++ l) (loopRef f df tol n xs.getLast!) := by
  intro n
  induction n with
  | zero => intro xs _; rfl
  | succ n ih =>
    intro xs hxs
    rw [newtonLoop, loopRef]
    by_cases h0 : df xs.getLast! = 0
    · simp [h0, Except.map]
    · simp only [h0, if_false]
      have hdrop : (xs ++ [xs.getLast! - f xs.getLast! / df xs.getLast!]).dropLast = xs :=
        List.dropLast_concat
      rw [hdrop]
      have hstep : xs.getLast! - f xs.getLast! / df xs.getLast! =
          newtonStep f df xs.getLast! := rfl
      rw [hstep]
      by_cases hc : |newtonStep f df xs.getLast! - xs.getLast!| < tol
      · rw [if_pos hc, if_pos hc]
        simp [Except.map]
      · rw [if_neg hc, if_neg hc]
        rw [ih (xs ++ [newtonStep f df xs.getLast!]) (by simp)]
        rw [getLast!_append_singleton]
        cases loopRef f df tol n (newtonStep f df xs.getLast!) with
        | ok l => simp [Except.map]
        | error e => simp [Except.map]

lemma map_orbit_cons (f df : ℚ → ℚ) (a : ℚ) (k : ℕ) :
    newtonStep f df a ::
        (List.range (k + 1)).map (fun i => newtonSeq f df (newtonStep f df a) (i + 1)) =
      (List.range (k + 2)).map (fun i => newtonSeq f df a (i + 1)) := by
  conv_rhs => rw [List.range_succ_eq_map]
  rw [List.map_cons, List.map_map]
  refine congrArg₂ List.cons ?_ ?_
  · simp [newtonSeq]
  · refine List.map_congr_left ?_
    intro i _
    simp [Function.comp, newtonSeq_shift, Nat.succ_eq_add_one]

lemma loopRef_ok_inv (f df : ℚ → ℚ) (tol : ℚ) :
    ∀ (n : ℕ) (a : ℚ) (l : List ℚ), loopRef f df tol n a = .ok l →
      ∃ k, k < n ∧
        l = (List.range (k + 1)).map (fun i => newtonSeq f df a (i + 1)) ∧
        (∀ j, j ≤ k → df (newtonSeq f df a j) ≠ 0) ∧
        (∀ j, j < k → ¬ |newtonSeq f df a (j + 1) - newtonSeq f df a j| < tol) ∧
        |newtonSeq f df a (k + 1) - newtonSeq f df a k| < tol := by
  intro n
  induction n with
  | zero => intro a l h; exact absurd h (by simp [loopRef])
  | succ n ih =>
    intro a l h
    rw [loopRef] at h
    by_cases h0 : df a = 0
    · rw [if_pos h0] at h
      exact absurd h (by simp)
    · rw [if_neg h0] at h
      by_cases hc : |newtonStep f df a - a| < tol
      · rw [if_pos hc] at h
        have hl : l = [newtonStep f df a] := by
          injection h with h
          exact h.symm
        refine ⟨0, Nat.succ_pos n, ?_, ?_, ?_, ?_⟩
        · rw [hl]; simp [newtonSeq, List.range_succ]
        · intro j hj
          have hj0 : j = 0 := Nat.le_zero.mp hj
          rw [hj0]
          simpa [newtonSeq] using h0
        · intro j hj
          exact absurd hj (Nat.not_lt_zero j)
        · simpa [newtonSeq] using hc
      · rw [if_neg hc] at h
        obtain ⟨l0, hr, hl⟩ := except_map_eq_ok _ _ _ h
        obtain ⟨k, hk, hl0, hd, hnc, hcv⟩ := ih (newtonStep f df a) l0 hr
        refine ⟨k + 1, Nat.succ_lt_succ hk, ?_, ?_, ?_, ?_⟩
        · rw [hl, hl0]
          exact map_orbit_cons f df a k
        · intro j hj
          cases j with
          | zero => simpa [newtonSeq] using h0
          | succ j =>
            have := hd j (Nat.le_of_succ_le_succ hj)
            simpa [newtonSeq_shift] using this
        · intro j hj
          cases j with
          | zero => simpa [newtonSeq] using hc
          | succ j =>
            have := hnc j (Nat.lt_of_succ_lt_succ hj)
            simpa [newtonSeq_shift] using this
        · simpa [newtonSeq_shift] using hcv

lemma loopRef_first_conv (f df : ℚ → ℚ) (tol : ℚ) :
    ∀ (n k : ℕ) (a : ℚ), k < n →
      (∀ j, j ≤ k → df (newtonSeq f df a j) ≠ 0) →
      (∀ j, j < k → ¬ |newtonSeq f df a (j + 1) - newtonSeq f df a j| < tol) →
      |newtonSeq f df a (k + 1) - newtonSeq f df a k| < tol →
      loopRef f df tol n a =
        .ok ((List.range (k + 1)).map (fun i => newtonSeq f df a (i + 1))) := by
  intro n
  induction n with
  | zero => intro k a hk _ _ _; exact absurd hk (Nat.not_lt_zero k)
  | succ n ih =>
    intro k a hk hd hnc hcv
    rw [loopRef]
    rw [if_neg (by simpa [newtonSeq] using hd 0 (Nat.zero_le k))]
    cases k with
    | zero =>
      rw [if_pos (by simpa [newtonSeq] using hcv)]
      simp [newtonSeq, List.range_succ]
    | succ k =>
      rw [if_neg (by simpa [newtonSeq] using hnc 0 (Nat.succ_pos k))]
      have hrec := ih k (newtonStep f df a) (Nat.lt_of_succ_lt_succ hk)
        (fun j hj => by simpa [newtonSeq_shift] using hd (j + 1) (Nat.succ_le_succ hj))
        (fun j hj => by simpa [newtonSeq_shift] using hnc (j + 1) (Nat.succ_lt_succ hj))
        (by simpa [newtonSeq_shift] using hcv)
      rw [hrec]
      simp only [Except.map]
      rw [map_orbit_cons f df a k]

lemma loopRef_nonconv (f df : ℚ → ℚ) (tol : ℚ) :
    ∀ (n : ℕ) (a : ℚ),
      (∀ j, j < n → df (newtonSeq f df a j) ≠ 0 ∧
        ¬ |newtonSeq f df a (j + 1) - newtonSeq f df a j| < tol) →
      loopRef f df tol n a = .error .nonConvergence := by
  intro n
  induction n with
  | zero => intro a _; rfl
  | succ n ih =>
    intro a h
    rw [loopRef]
    rw [if_neg (by simpa [newtonSeq] using (h 0 (Nat.succ_pos n)).1)]
    rw [if_neg (by simpa [newtonSeq] using (h 0 (Nat.succ_pos n)).2)]
    rw [ih (newtonStep f df a) (fun j hj => by
      refine ⟨?_, ?_⟩
      · simpa [newtonSeq_shift] using (h (j + 1) (Nat.succ_lt_succ hj)).1
      · simpa [newtonSeq_shift] using (h (j + 1) (Nat.succ_lt_succ hj)).2)]
    rfl

lemma loopRef_zeroDeriv (f df : ℚ → ℚ) (tol : ℚ) :
    ∀ (n k : ℕ) (a : ℚ), k < n →
      (∀ j, j < k → df (newtonSeq f df a j) ≠ 0 ∧
        ¬ |newtonSeq f df a (j + 1) - newtonSeq f df a j| < tol) →
      df (newtonSeq f df a k) = 0 →
      loopRef f df tol n a = .error .zeroDerivative := by
  intro n
  induction n with
  | zero => intro k a hk _ _; exact absurd hk (Nat.not_lt_zero k)
  | succ n ih =>
    intro k a hk hpre hz
    rw [loopRef]
    cases k with
    | zero =>
      rw [if_pos (by simpa [newtonSeq] using hz)]
    | succ k =>
      rw [if_neg (by simpa [newtonSeq] using (hpre 0 (Nat.succ_pos k)).1)]
      rw [if_neg (by simpa [newtonSeq] using (hpre 0 (Nat.succ_pos k)).2)]
      rw [ih k (newtonStep f df a) (Nat.lt_of_succ_lt_succ hk)
        (fun j hj => by
          refine ⟨?_, ?_⟩
          · simpa [newtonSeq_shift] using (hpre (j + 1) (Nat.succ_lt_succ hj)).1
          · simpa [newtonSeq_shift] using (hpre (j + 1) (Nat.succ_lt_succ hj)).2)
        (by simpa [newtonSeq_shift] using hz)]
      rfl

lemma loopRef_zeroDeriv_inv (f df : ℚ → ℚ) (tol : ℚ) :
    ∀ (n : ℕ) (a : ℚ), loopRef f df tol n a = .error .zeroDerivative →
      ∃ k, k < n ∧ df (newtonSeq f df a k) = 0 := by
  intro n
  induction n with
  | zero => intro a h; exact absurd h (by simp [loopRef])
  | succ n ih =>
    intro a h
    rw [loopRef] at h
    by_cases h0 : df a = 0
    · exact ⟨0, Nat.succ_pos n, by simpa [newtonSeq] using h0⟩
    · rw [if_neg h0] at h
      by_cases hc : |newtonStep f df a - a| < tol
      · rw [if_pos hc] at h
        exact absurd h (by simp)
      · rw [if_neg hc] at h
        have hr := (except_map_eq_error _ _ _).mp h
        obtain ⟨k, hk, hz⟩ := ih (newtonStep f df a) hr
        exact ⟨k + 1, Nat.succ_lt_succ hk, by simpa [newtonSeq_shift] using hz⟩

lemma my_newton_eq_loopRef (e : Expr) (x0 tol : ℚ) (m : ℤ) :
    my_newton e x0 tol m =
      Except.map (fun l => x0 :: l) (loopRef (fFun e) (dfFun e) tol m.toNat x0) := by
  have h1 : my_newton e x0 tol m = newtonLoop (fFun e) (dfFun e) tol [x0] m.toNat := rfl
  rw [h1, newtonLoop_eq_loopRef (fFun e) (dfFun e) tol m.toNat [x0] (by simp)]
  rfl

lemma iterSeq_cons_range (e : Expr) (x0 : ℚ) (k : ℕ) :
    x0 :: (List.range (k + 1)).map (fun i => iterSeq e x0 (i + 1)) =
      (List.range (k + 2)).map (iterSeq e x0) := by
  conv_rhs => rw [List.range_succ_eq_map]
  rw [List.map_cons, List.map_map]
  refine congrArg₂ List.cons rfl ?_
  refine List.map_congr_left ?_
  intro i _
  simp [Function.comp, Nat.succ_eq_add_one]

lemma my_newton_ok_inv (e : Expr) (x0 tol : ℚ) (m : ℤ) (l : List ℚ)
    (h : my_newton e x0 tol m = .ok l) :
    ∃ k, k < m.toNat ∧ l = (List.range (k + 2)).map (iterSeq e x0) ∧
      (∀ j, j ≤ k → dfFun e (iterSeq e x0 j) ≠ 0) ∧
      (∀ j, j < k → ¬ |iterSeq e x0 (j + 1) - iterSeq e x0 j| < tol) ∧
      |iterSeq e x0 (k + 1) - iterSeq e x0 k| < tol := by
  rw [my_newton_eq_loopRef] at h
  obtain ⟨l0, hr, hl⟩ := except_map_eq_ok _ _ _ h
  obtain ⟨k, hk, hl0, hd, hnc, hcv⟩ := loopRef_ok_inv (fFun e) (dfFun e) tol m.toNat x0 l0 hr
  refine ⟨k, hk, ?_, hd, hnc, hcv⟩
  rw [hl, hl0]
  exact iterSeq_cons_range e x0 k

/-- C1: if at iteration k (within the first max_iter iterations) the
newly computed iterate lies within tol of the previous iterate — the
iterate that was last in the sequence before the append — and no
earlier iteration converged or hit the zero-derivative guard, then the
routine stops and returns the full iterate sequence from x0 through
that new iterate as success. -/
theorem claim_C1 (e : Expr) (x0 tol : ℚ) (m : ℤ) (k : ℕ) (hk : k < m.toNat)
    (hd : ∀ j, j ≤ k → dfFun e (iterSeq e x0 j) ≠ 0)
    (hnc : ∀ j, j < k → ¬ |iterSeq e x0 (j + 1) - iterSeq e x0 j| < tol)
    (hcv : |iterSeq e x0 (k + 1) - iterSeq e x0 k| < tol) :
    my_newton e x0 tol m = .ok ((List.range (k + 2)).map (iterSeq e x0)) := by
  rw [my_newton_eq_loopRef]
  rw [loopRef_first_conv (fFun e) (dfFun e) tol m.toNat k x0 hk hd hnc hcv]
  simp only [Except.map]
  exact congrArg Except.ok (iterSeq_cons_range e x0 k)

theorem claim_C1_witness :
    my_newton (Expr.var "x") 5 10 20 = .ok ((List.range 2).map (iterSeq (Expr.var "x") 5)) :=
  claim_C1 (Expr.var "x") 5 10 20 0 (by omega)
    (fun j hj => by
      have h0 : j = 0 := Nat.le_zero.mp hj
      rw [h0]
      norm_num [dfFun, iterSeq, newtonSeq, selectedVar, freeSymbols, collectSymbols,
        evalE, diffE, List.eraseDups, List.eraseDups.loop])
    (fun j hj => absurd hj (Nat.not_lt_zero j))
    (by norm_num [iterSeq, newtonSeq, newtonStep, fFun, dfFun, selectedVar, freeSymbols,
      collectSymbols, evalE, diffE, List.eraseDups, List.eraseDups.loop])

/-- C2: when the derivative evaluates to exactly zero at the current
iterate of a reached iteration, the routine fails immediately with the
zero-derivative error and returns no iterate sequence; and failing
with that error implies some iterate within the cap had an exactly
zero derivative. -/
theorem claim_C2 (e : Expr) (x0 tol : ℚ) (m : ℤ) :
    (∀ k, k < m.toNat →
      (∀ j, j < k → dfFun e (iterSeq e x0 j) ≠ 0 ∧
        ¬ |iterSeq e x0 (j + 1) - iterSeq e x0 j| < tol) →
      dfFun e (iterSeq e x0 k) = 0 →
      my_newton e x0 tol m = .error .zeroDerivative) ∧
    (my_newton e x0 tol m = .error .zeroDerivative →
      ∃ k, k < m.toNat ∧ dfFun e (iterSeq e x0 k) = 0) := by
  constructor
  · intro k hk hpre hz
    rw [my_newton_eq_loopRef]
    rw [loopRef_zeroDeriv (fFun e) (dfFun e) tol m.toNat k x0 hk hpre hz]
    rfl
  · intro h
    rw [my_newton_eq_loopRef] at h
    exact loopRef_zeroDeriv_inv (fFun e) (dfFun e) tol m.toNat x0
      ((except_map_eq_error _ _ _).mp h)

theorem claim_C2_witness :
    my_newton (Expr.const 2) 1 (1 / 1000000) 20 = .error .zeroDerivative :=
  (claim_C2 (Expr.const 2) 1 (1 / 1000000) 20).1 0 (by omega)
    (fun j hj => absurd hj (Nat.not_lt_zero j))
    (by norm_num [dfFun, iterSeq, newtonSeq, selectedVar, freeSymbols, collectSymbols,
      evalE, diffE, List.eraseDups, List.eraseDups.loop])

/-- C3: if all max_iter iterations run without the convergence check
holding and without the zero-derivative guard firing, the routine
fails with the non-convergence error, returning no partial sequence;
moreover a successful run appends at most max_iter iterates after x0,
so the loop body runs at most max_iter times. -/
theorem claim_C3 :
    (∀ (e : Expr) (x0 tol : ℚ) (m : ℤ),
      (∀ j, j < m.toNat → dfFun e (iterSeq e x0 j) ≠ 0 ∧
        ¬ |iterSeq e x0 (j + 1) - iterSeq e x0 j| < tol) →
      my_newton e x0 tol m = .error .nonConvergence) ∧
    (∀ (e : Expr) (x0 tol : ℚ) (m : ℤ) (l : List ℚ),
      my_newton e x0 tol m = .ok l → l.length ≤ m.toNat + 1) := by
  constructor
  · intro e x0 tol m h
    rw [my_newton_eq_loopRef]
    rw [loopRef_nonconv (fFun e) (dfFun e) tol m.toNat x0 h]
    rfl
  · intro e x0 tol m l h
    obtain ⟨k, hk, hl, _⟩ := my_newton_ok_inv e x0 tol m l h
    rw [hl]
    simp only [List.length_map, List.length_range]
    omega

theorem claim_C3_witness :
    my_newton (Expr.sub (Expr.pow (Expr.var "x") 3)
        (Expr.sub (Expr.mul (Expr.const 2) (Expr.var "x")) (Expr.const 2)))
      0 (1 / 1000000) 20 = .error .nonConvergence :=
  claim_C3.1 (Expr.sub (Expr.pow (Expr.var "x") 3)
      (Expr.sub (Expr.mul (Expr.const 2) (Expr.var "x")) (Expr.const 2)))
    0 (1 / 1000000) 20
    (by
      intro j hj
      have hstep0 : newtonStep
          (fFun (Expr.sub (Expr.pow (Expr.var "x") 3)
            (Expr.sub (Expr.mul (Expr.const 2) (Expr.var "x")) (Expr.const 2))))
          (dfFun (Expr.sub (Expr.pow (Expr.var "x") 3)
            (Expr.sub (Expr.mul (Expr.const 2) (Expr.var "x")) (Expr.const 2)))) 0 = 1 := by
        norm_num [newtonStep, fFun, dfFun, selectedVar, freeSymbols, collectSymbols,
          evalE, diffE, List.eraseDups, List.eraseDups.loop]
      have hstep1 : newtonStep
          (fFun (Expr.sub (Expr.pow (Expr.var "x") 3)
            (Expr.sub (Expr.mul (Expr.const 2) (Expr.var "x")) (Expr.const 2))))
          (dfFun (Expr.sub (Expr.pow (Expr.var "x") 3)
            (Expr.sub (Expr.mul (Expr.const 2) (Expr.var "x")) (Expr.const 2)))) 1 = 0 := by
        norm_num [newtonStep, fFun, dfFun, selectedVar, freeSymbols, collectSymbols,
          evalE, diffE, List.eraseDups, List.eraseDups.loop]
      have hseq : ∀ i, iterSeq (Expr.sub (Expr.pow (Expr.var "x") 3)
          (Expr.sub (Expr.mul (Expr.const 2) (Expr.var "x")) (Expr.const 2))) 0 i
          = if i % 2 = 0 then 0 else 1 := by
        intro i
        induction i with
        | zero => rfl
        | succ i ih =>
          have hsucc : iterSeq (Expr.sub (Expr.pow (Expr.var "x") 3)
              (Expr.sub (Expr.mul (Expr.const 2) (Expr.var "x")) (Expr.const 2))) 0 (i + 1)
              = newtonStep
                  (fFun (Expr.sub (Expr.pow (Expr.var "x") 3)
                    (Expr.sub (Expr.mul (Expr.const 2) (Expr.var "x")) (Expr.const 2))))
                  (dfFun (Expr.sub (Expr.pow (Expr.var "x") 3)
                    (Expr.sub (Expr.mul (Expr.const 2) (Expr.var "x")) (Expr.const 2))))
                  (iterSeq (Expr.sub (Expr.pow (Expr.var "x") 3)
                    (Expr.sub (Expr.mul (Expr.const 2) (Expr.var "x")) (Expr.const 2))) 0 i) := rfl
          rw [hsucc, ih]
          by_cases hp : i % 2 = 0
          · rw [if_pos hp, hstep0, if_neg (by omega)]
          · rw [if_neg hp, hstep1, if_pos (by omega)]
      have hd0 : dfFun (Expr.sub (Expr.pow (Expr.var "x") 3)
          (Expr.sub (Expr.mul (Expr.const 2) (Expr.var "x")) (Expr.const 2))) 0 ≠ 0 := by
        norm_num [dfFun, selectedVar, freeSymbols, collectSymbols, evalE, diffE,
          List.eraseDups, List.eraseDups.loop]
      have hd1 : dfFun (Expr.sub (Expr.pow (Expr.var "x") 3)
          (Expr.sub (Expr.mul (Expr.const 2) (Expr.var "x")) (Expr.const 2))) 1 ≠ 0 := by
        norm_num [dfFun, selectedVar, freeSymbols, collectSymbols, evalE, diffE,
          List.eraseDups, List.eraseDups.loop]
      refine ⟨?_, ?_⟩
      · rw [hseq]
        by_cases hp : j % 2 = 0
        · rw [if_pos hp]; exact hd0
        · rw [if_neg hp]; exact hd1
      · rw [hseq, hseq]
        by_cases hp : j % 2 = 0
        · rw [if_pos hp, if_neg (by omega)]
          norm_num
        · rw [if_neg hp, if_pos (by omega)]
          norm_num)

/-- C4: on a successful run, every element after the first equals the
Newton update of its predecessor: the predecessor minus the quotient
of the function value by the value of the symbolic derivative, with
plain division and no further guard. -/
theorem claim_C4 (e : Expr) (x0 tol : ℚ) (m : ℤ) (l : List ℚ)
    (h : my_newton e x0 tol m = .ok l) (i : ℕ)
    (h1 : i + 1 < l.length) (h2 : i < l.length) :
    l.get ⟨i + 1, h1⟩ =
      l.get ⟨i, h2⟩ - fFun e (l.get ⟨i, h2⟩) / dfFun e (l.get ⟨i, h2⟩) := by
  obtain ⟨k, hk, hl, _⟩ := my_newton_ok_inv e x0 tol m l h
  subst hl
  simp only [List.get_eq_getElem, List.getElem_map, List.getElem_range]
  rfl

theorem claim_C4_witness :
    ([5, 0] : List ℚ).get ⟨1, by decide⟩ =
      ([5, 0] : List ℚ).get ⟨0, by decide⟩ -
        fFun (Expr.var "x") (([5, 0] : List ℚ).get ⟨0, by decide⟩) /
          dfFun (Expr.var "x") (([5, 0] : List ℚ).get ⟨0, by decide⟩) :=
  claim_C4 (Expr.var "x") 5 10 20 [5, 0]
    (by norm_num [my_newton, selectedVar, freeSymbols, collectSymbols, newtonLoop,
      List.getLast!, List.getLast?, evalE, diffE, List.eraseDups, List.eraseDups.loop])
    0 (by decide) (by decide)

/-- C5: a successfully returned sequence starts with the original x0
unchanged, and is exactly the orbit of the Newton update from x0: the
one-element sequence [x0] extended by one new estimate per completed
iteration. -/
theorem claim_C5 (e : Expr) (x0 tol : ℚ) (m : ℤ) (l : List ℚ)
    (h : my_newton e x0 tol m = .ok l) :
    l.head? = some x0 ∧ ∃ k, l = (List.range (k + 2)).map (iterSeq e x0) := by
  obtain ⟨k, hk, hl, _⟩ := my_newton_ok_inv e x0 tol m l h
  refine ⟨?_, k, hl⟩
  rw [hl, ← iterSeq_cons_range]
  rfl

theorem claim_C5_witness :
    ([5, 0] : List ℚ).head? = some 5 :=
  (claim_C5 (Expr.var "x") 5 10 20 [5, 0]
    (by norm_num [my_newton, selectedVar, freeSymbols, collectSymbols, newtonLoop,
      List.getLast!, List.getLast?, evalE, diffE, List.eraseDups, List.eraseDups.loop])).1

/-- C6: the independent variable is selected once at entry: the first
free symbol in the backend's enumeration order when the expression has
one, the conventional name x otherwise; the rest of the invocation
depends on the expression only through the evaluators built over that
variable. -/
theorem claim_C6 (e : Expr) (x0 tol : ℚ) (m : ℤ) :
    (∀ v rest, freeSymbols e = v :: rest → selectedVar e = v) ∧
    (freeSymbols e = [] → selectedVar e = "x") ∧
    my_newton e x0 tol m = newtonLoop (fFun e) (dfFun e) tol [x0] m.toNat := by
  refine ⟨?_, ?_, rfl⟩
  · intro v rest hv
    simp [selectedVar, hv]
  · intro hv
    simp [selectedVar, hv]

theorem claim_C6_witness : selectedVar (Expr.var "y") = "y" :=
  (claim_C6 (Expr.var "y") 0 1 1).1 "y" []
    (by simp [freeSymbols, collectSymbols, List.eraseDups, List.eraseDups.loop])

/-- C7: the routine is deterministic: two invocations with equal
expressions, equal starting points, equal tolerances and equal
iteration caps produce equal results — the same sequence or the same
failure kind; the embedding is a pure function of its arguments, so no
shared or global state is read or mutated. -/
theorem claim_C7 (e1 e2 : Expr) (a1 a2 t1 t2 : ℚ) (m1 m2 : ℤ)
    (he : e1 = e2) (ha : a1 = a2) (ht : t1 = t2) (hm : m1 = m2) :
    my_newton e1 a1 t1 m1 = my_newton e2 a2 t2 m2 := by
  rw [he, ha, ht, hm]

theorem claim_C7_witness :
    my_newton (Expr.var "x") 1 1 1 = my_newton (Expr.var "x") 1 1 1 :=
  claim_C7 (Expr.var "x") (Expr.var "x") 1 1 1 1 1 1 rfl rfl rfl rfl

/-- C8: a returned sequence always has at least two elements; in
particular when x0 is already an exact root with nonzero derivative
the routine still performs one iteration and returns [x0, x0], never
the one-element sequence [x0]. -/
theorem claim_C8 :
    (∀ (e : Expr) (x0 tol : ℚ) (m : ℤ) (l : List ℚ),
      my_newton e x0 tol m = .ok l → 2 ≤ l.length) ∧
    (∀ (e : Expr) (x0 tol : ℚ) (m : ℤ),
      1 ≤ m → 0 < tol → fFun e x0 = 0 → dfFun e x0 ≠ 0 →
      my_newton e x0 tol m = .ok [x0, x0]) := by
  constructor
  · intro e x0 tol m l h
    obtain ⟨k, hk, hl, _⟩ := my_newton_ok_inv e x0 tol m l h
    rw [hl]
    simp only [List.length_map, List.length_range]
    omega
  · intro e x0 tol m hm htol hf hdf
    rw [my_newton_eq_loopRef]
    obtain ⟨n, hn⟩ : ∃ n, m.toNat = n + 1 := ⟨m.toNat - 1, by omega⟩
    rw [hn, loopRef, if_neg hdf]
    have hb : newtonStep (fFun e) (dfFun e) x0 = x0 := by
      simp [newtonStep, hf]
    simp only [hb]
    rw [if_pos (by simpa using htol)]
    rfl

theorem claim_C8_witness :
    my_newton (Expr.sub (Expr.var "x") (Expr.const 3)) 3 1 20 = .ok [3, 3] :=
  claim_C8.2 (Expr.sub (Expr.var "x") (Expr.const 3)) 3 1 20
    (by decide) (by norm_num)
    (by norm_num [fFun, selectedVar, freeSymbols, collectSymbols, evalE,
      List.eraseDups, List.eraseDups.loop])
    (by norm_num [dfFun, selectedVar, freeSymbols, collectSymbols, evalE, diffE,
      List.eraseDups, List.eraseDups.loop])

/-- C9: a successful run stops at the first convergent step: in the
returned sequence of length n + 1 every consecutive pair before the
final one differs by at least tol, and the final pair differs by less
than tol. -/
theorem claim_C9 (e : Expr) (x0 tol : ℚ) (m : ℤ) (l : List ℚ) (n : ℕ)
    (h : my_newton e x0 tol m = .ok l) (hn : l.length = n + 1) :
    (∀ i (h1 : i + 1 < l.length) (h2 : i < l.length), i + 1 < n →
      ¬ |l.get ⟨i + 1, h1⟩ - l.get ⟨i, h2⟩| < tol) ∧
    ∀ (hf : n < l.length) (hp : n - 1 < l.length),
      |l.get ⟨n, hf⟩ - l.get ⟨n - 1, hp⟩| < tol := by
  obtain ⟨k, hk, hl, hd, hnc, hcv⟩ := my_newton_ok_inv e x0 tol m l h
  have hlen : l.length = k + 2 := by
    rw [hl]
    simp [List.length_map, List.length_range]
  have hnk : n = k + 1 := by omega
  subst hl
  constructor
  · intro i h1 h2 hi
    simp only [List.get_eq_getElem, List.getElem_map, List.getElem_range]
    exact hnc i (by omega)
  · intro hf hp
    simp only [List.get_eq_getElem, List.getElem_map, List.getElem_range]
    rw [hnk]
    simpa using hcv

theorem claim_C9_witness :
    |([5, 0] : List ℚ).get ⟨1, by decide⟩ - ([5, 0] : List ℚ).get ⟨0, by decide⟩| < 10 :=
  (claim_C9 (Expr.var "x") 5 10 20 [5, 0] 1
    (by norm_num [my_newton, selectedVar, freeSymbols, collectSymbols, newtonLoop,
      List.getLast!, List.getLast?, evalE, diffE, List.eraseDups, List.eraseDups.loop])
    (by decide)).2 (by decide) (by decide)

/-- C10: no validation of the iteration cap: with max_iter at most
zero the loop runs zero times and the routine fails at once with the
non-convergence error, for every expression and starting point alike,
so no function or derivative evaluation and no append takes place. -/
theorem claim_C10 (e : Expr) (x0 tol : ℚ) (m : ℤ) (hm : m ≤ 0) :
    my_newton e x0 tol m = .error .nonConvergence := by
  rw [my_newton_eq_loopRef, Int.toNat_of_nonpos hm]
  rfl

theorem claim_C10_witness :
    my_newton (Expr.var "x") 0 1 (-5) = .error .nonConvergence :=
  claim_C10 (Expr.var "x") 0 1 (-5) (by decide)

end Newton
